import Mathlib

/-!
Shallow embedding of the `kronos` backtesting engine (Rust) in Lean 4.

Conventions of the embedding:
* Rust `f64` is modelled as `ℚ` (exact rational arithmetic); machine timestamps
  (`chrono::NaiveDateTime`) are modelled as `Int` (only their linear order is used).
* `HashMap<String, V>` is modelled as an association list `List (String × V)`
  whose operations keep keys unique (lookup/update of the first matching key).
* Fallible Rust functions returning `Result` are modelled with `Except String`.
* The broker state carries one ghost field, `exec_trace`, recording each
  successful execution together with its execution price (the event the
  engine forwards to the trade tracker); no source behaviour depends on it.
-/

namespace Kronos

/-- `broker/fee.rs`: fee schedule. -/
inductive FeeType where
  | Flat (fee : ℚ)
  | Percentage (percentage : ℚ)
deriving DecidableEq, Repr

/-- `broker/order.rs`: order type. -/
inductive OrderType where
  | Market
  | Limit (price : ℚ)
  | Stop (price : ℚ)
deriving DecidableEq, Repr

/-- `broker/order.rs`: order direction. -/
inductive OrderDirection where
  | Buy
  | Sell
deriving DecidableEq, Repr

/-- `broker/order.rs`: a pending order. -/
structure Order where
  asset : String
  direction : OrderDirection
  size : ℚ
  order_type : OrderType
  valid_until : Option Int
deriving DecidableEq, Repr

/-- `broker/position.rs`: a long holding. -/
structure Position where
  quantity : ℚ
  average_price : ℚ
deriving DecidableEq, Repr

/-- `Position::new`. -/
def Position.new (quantity price : ℚ) : Position :=
  { quantity := quantity, average_price := price }

/-- `Position::update`: weighted-average cost on additional buys. -/
def Position.update (p : Position) (quantity price : ℚ) : Position :=
  let total_cost := p.average_price * p.quantity + price * quantity
  { quantity := p.quantity + quantity,
    average_price := total_cost / (p.quantity + quantity) }

/-- `Position::remove`: reduce quantity, failing when asked for more than held. -/
def Position.remove (p : Position) (quantity : ℚ) : Except String Position :=
  if quantity > p.quantity then
    .error "Cannot remove more than the available quantity."
  else
    .ok { p with quantity := p.quantity - quantity }

/-- Association-list lookup of the first binding of a key
(model of `HashMap::get`). -/
def lookupKV {α : Type} (l : List (String × α)) (k : String) : Option α :=
  match l with
  | [] => none
  | (k', v) :: rest => if k' = k then some v else lookupKV rest k

/-- Replace the first binding of a key, or append a fresh binding
(model of `HashMap` insertion/`entry` update). -/
def setKV {α : Type} (l : List (String × α)) (k : String) (v : α) : List (String × α) :=
  match l with
  | [] => [(k, v)]
  | (k', v') :: rest => if k' = k then (k', v) :: rest else (k', v') :: setKV rest k v

/-- Remove the first binding of a key (model of `HashMap::remove`). -/
def eraseKV {α : Type} (l : List (String × α)) (k : String) : List (String × α) :=
  match l with
  | [] => []
  | (k', v') :: rest => if k' = k then rest else (k', v') :: eraseKV rest k

/-- `broker/execution.rs`: `BrokerAnalytics`. -/
structure BrokerAnalytics where
  added_funds : ℚ
  total_placed_orders : Int
  total_exec_orders : Int
  total_fees : ℚ
  total_slippage : ℚ
deriving DecidableEq, Repr

/-- `BrokerAnalytics::new`. -/
def BrokerAnalytics.new : BrokerAnalytics :=
  { added_funds := 0, total_placed_orders := 0, total_exec_orders := 0,
    total_fees := 0, total_slippage := 0 }

/-- `broker/execution.rs`: `Broker`, plus the ghost `exec_trace` field
listing, in order, each successful execution `(order, execution_price)`. -/
structure Broker where
  cash : ℚ
  fee_type : Option FeeType
  slippage_range : ℚ × ℚ
  portfolio : List (String × Position)
  orders : List Order
  slippage_values : List ℚ
  slippage_index : ℕ
  analytics : BrokerAnalytics
  exec_trace : List (Order × ℚ)
deriving DecidableEq, Repr

namespace Broker

/-- `Broker::new`. -/
def new : Broker :=
  { cash := 0, fee_type := none, slippage_range := (0, 0), portfolio := [],
    orders := [], slippage_values := [], slippage_index := 0,
    analytics := BrokerAnalytics.new, exec_trace := [] }

/-- `Broker::set_cash`. -/
def set_cash (b : Broker) (cash : ℚ) : Broker :=
  { b with analytics := { b.analytics with added_funds := b.analytics.added_funds + cash },
           cash := cash }

/-- `Broker::set_fees`. -/
def set_fees (b : Broker) (fee_type : FeeType) : Broker :=
  { b with fee_type := some fee_type }

/-- `Broker::set_slippage`. The Rust function draws 10000 values uniformly
from `[min, max]` with `rand::rng()`; the RNG draw sequence is an explicit
argument `draws` here, so the pool contents are whatever the RNG produced. -/
def set_slippage (b : Broker) (min_slippage max_slippage : ℚ) (draws : List ℚ) : Broker :=
  { b with slippage_range := (min_slippage, max_slippage),
           slippage_values := draws,
           slippage_index := 0 }

/-- `Broker::place_order`. -/
def place_order (b : Broker) (order : Order) : Broker :=
  { b with analytics := { b.analytics with
             total_placed_orders := b.analytics.total_placed_orders + 1 },
           orders := b.orders ++ [order] }

/-- `Broker::calculate_fees`. -/
def calculate_fees (b : Broker) (amount : ℚ) : ℚ :=
  match b.fee_type with
  | some (.Flat fee) => fee
  | some (.Percentage percentage) => amount * percentage
  | none => 0

/-- `Broker::apply_slippage`: returns the slipped price together with the
updated broker (the Rust method mutates `slippage_index`). -/
def apply_slippage (b : Broker) (market_price : ℚ) : ℚ × Broker :=
  if b.slippage_values.isEmpty then
    (market_price, b)
  else
    let slippage_percentage :=
      b.slippage_values.getD (b.slippage_index % b.slippage_values.length) 0
    (market_price * (1 + slippage_percentage),
      { b with slippage_index := b.slippage_index + 1 })

/-- `Broker::execute_order`: returns the updated broker and the `Result`. -/
def execute_order (b : Broker) (order : Order) (market_price : ℚ) :
    Broker × Except String Unit :=
  let pr := apply_slippage b market_price
  let execution_price := pr.1
  let b1 := pr.2
  let slippage_diff := execution_price - market_price
  let b2 := { b1 with analytics := { b1.analytics with
                total_slippage := b1.analytics.total_slippage + slippage_diff * order.size } }
  match order.direction with
  | .Buy =>
      let total_cost := order.size * execution_price
      let fees := b2.calculate_fees total_cost
      let total_spent := total_cost + fees
      if b2.cash ≥ total_spent then
        let b3 := { b2 with cash := b2.cash - total_spent,
                            analytics := { b2.analytics with
                              total_fees := b2.analytics.total_fees + fees } }
        let position := (lookupKV b3.portfolio order.asset).getD
          (Position.new 0 execution_price)
        let b4 := { b3 with
          portfolio := setKV b3.portfolio order.asset
            (position.update order.size execution_price),
          exec_trace := b3.exec_trace ++ [(order, execution_price)] }
        (b4, .ok ())
      else
        (b2, .error "Not enough cash")
  | .Sell =>
      let total_raw_value := order.size * execution_price
      let fees := b2.calculate_fees total_raw_value
      let total_value := total_raw_value - fees
      match lookupKV b2.portfolio order.asset with
      | none => (b2, .error "Position not found in portfolio")
      | some position =>
          if position.quantity < order.size then
            (b2, .error "Not enough quantity to sell")
          else
            match position.remove order.size with
            | .error e => (b2, .error e)
            | .ok position' =>
                let b3 := { b2 with
                  portfolio := setKV b2.portfolio order.asset position',
                  cash := b2.cash + total_value,
                  analytics := { b2.analytics with
                    total_fees := b2.analytics.total_fees + fees } }
                let b4 :=
                  if position'.quantity = 0 then
                    { b3 with portfolio := eraseKV b3.portfolio order.asset }
                  else b3
                ({ b4 with exec_trace := b4.exec_trace ++ [(order, execution_price)] },
                  .ok ())

end Broker

/-- `data.rs`: one OHLCV sample (timestamp modelled as `Int`).  The Rust
field `open` is called `open_price` here because `open` is a Lean keyword. -/
structure OHLCVData where
  timestamp : Int
  open_price : ℚ
  high : ℚ
  low : ℚ
  close : ℚ
  volume : ℕ
deriving DecidableEq, Repr

/-- `Vec::swap_remove`: replace `l[i]` with the last element and pop the last
element. (The Rust method panics when `i` is out of bounds; all call sites in
`handle_unfulfilled_orders` have `i < l.length`.) -/
def swapRemove {α : Type} (l : List α) (i : ℕ) : List α :=
  match l.getLast? with
  | none => l
  | some last => (l.set i last).dropLast

namespace Broker

/-- The expiry test in `handle_unfulfilled_orders`:
`current_time > valid_until` when `valid_until` is set. -/
def is_expired (current_time : Int) (o : Order) : Bool :=
  match o.valid_until with
  | some valid_until => valid_until < current_time
  | none => false

/-- The trigger test of `handle_unfulfilled_orders` against the tick's open:
market orders always fire, limit/stop fire on their price conditions. -/
def order_triggered (o : Order) (openPrice : ℚ) : Bool :=
  match o.order_type with
  | .Market => true
  | .Limit price =>
      (o.direction = OrderDirection.Buy ∧ openPrice ≤ price)
        ∨ (o.direction = OrderDirection.Sell ∧ price ≤ openPrice)
  | .Stop price =>
      (o.direction = OrderDirection.Buy ∧ price ≤ openPrice)
        ∨ (o.direction = OrderDirection.Sell ∧ openPrice ≤ price)

/-- The loop body of `Broker::handle_unfulfilled_orders`, with the loop
index `i` explicit.  Each round either removes the order at slot `i`
(`swap_remove`, on expiry or successful execution) or advances `i`
(no trigger, or execution failure). `Broker::try_execute_and_remove`
is inlined at the two execution call sites. -/
def handleLoop (current_time : Int) (openPrice : ℚ) (b : Broker) (i : ℕ) : Broker :=
  if h : i < b.orders.length then
    let order := b.orders.get ⟨i, h⟩
    if is_expired current_time order then
      handleLoop current_time openPrice { b with orders := swapRemove b.orders i } i
    else if order_triggered order openPrice then
      match (execute_order b order openPrice).2 with
      | .ok _ =>
          handleLoop current_time openPrice
            { (execute_order b order openPrice).1 with
              analytics := { (execute_order b order openPrice).1.analytics with
                total_exec_orders :=
                  (execute_order b order openPrice).1.analytics.total_exec_orders + 1 },
              orders := swapRemove (execute_order b order openPrice).1.orders i } i
      | .error _ =>
          handleLoop current_time openPrice (execute_order b order openPrice).1 (i + 1)
    else
      handleLoop current_time openPrice b (i + 1)
  else b
termination_by b.orders.length - i
decreasing_by
  all_goals
    have hlen : ∀ (l : List Order) (j : ℕ), l ≠ [] → (swapRemove l j).length = l.length - 1 := by
      intro l j hl
      rcases List.exists_cons_of_ne_nil hl with ⟨a, t, rfl⟩
      have hg : (a :: t).getLast? = some ((a :: t).getLast (by simp)) :=
        List.getLast?_eq_getLast _ _
      simp [swapRemove, hg]
  all_goals
    have hord : ∀ (bb : Broker) (oo : Order) (mm : ℚ),
        (execute_order bb oo mm).1.orders = bb.orders := by
      have hap : ∀ (bb : Broker) (mm : ℚ), ((apply_slippage bb mm).2).orders = bb.orders := by
        intro bb mm
        unfold apply_slippage
        split <;> rfl
      intro bb oo mm
      unfold execute_order
      dsimp only
      split <;> (try split) <;> (try split) <;> (try split) <;> (try split) <;> simp [hap]
  · have hne : b.orders ≠ [] := List.ne_nil_of_length_pos (Nat.lt_of_le_of_lt (Nat.zero_le _) h)
    show (swapRemove b.orders i).length - i < b.orders.length - i
    rw [hlen b.orders i hne]
    omega
  · have hb' : (execute_order b (b.orders.get ⟨i, h⟩) openPrice).1.orders = b.orders :=
      hord b (b.orders.get ⟨i, h⟩) openPrice
    have hne : (execute_order b (b.orders.get ⟨i, h⟩) openPrice).1.orders ≠ [] := by
      rw [hb']
      exact List.ne_nil_of_length_pos (Nat.lt_of_le_of_lt (Nat.zero_le _) h)
    show (swapRemove (execute_order b (b.orders.get ⟨i, h⟩) openPrice).1.orders i).length - i
      < b.orders.length - i
    rw [hlen _ i hne, hb']
    omega
  · have hb' : (execute_order b (b.orders.get ⟨i, h⟩) openPrice).1.orders = b.orders :=
      hord b (b.orders.get ⟨i, h⟩) openPrice
    show (execute_order b (b.orders.get ⟨i, h⟩) openPrice).1.orders.length - (i + 1)
      < b.orders.length - i
    rw [hb']
    omega
  · omega

/-- `Broker::handle_unfulfilled_orders`. -/
def handle_unfulfilled_orders (b : Broker) (current_time : Int)
    (current_price : OHLCVData) : Broker :=
  handleLoop current_time current_price.open_price b 0

/-- `Broker::portfolio_value`: mark-to-close valuation of all positions. -/
def portfolio_value (b : Broker) (data : OHLCVData) : ℚ :=
  (b.portfolio.map (fun p => p.2.quantity * data.close)).sum

end Broker

/-! ### Trade tracker (`analytics/trade.rs`, `analytics/tracker.rs`) -/

/-- `analytics/trade.rs`: a round-trip trade; still open while the `exit_*`
and `profit_loss`/`return_pct` fields are unset.  The `direction` field is
omitted: `TradeDirection` has the single variant `Long`. -/
structure Trade where
  id : ℕ
  asset : String
  entry_time : Int
  entry_price : ℚ
  quantity : ℚ
  entry_fees : ℚ
  entry_slippage : ℚ
  exit_time : Option Int
  exit_price : Option ℚ
  exit_fees : ℚ
  exit_slippage : ℚ
  profit_loss : Option ℚ
  return_pct : Option ℚ
deriving DecidableEq, Repr

/-- `Trade::new`. -/
def Trade.new (id : ℕ) (asset : String) (entry_time : Int)
    (entry_price quantity entry_fees entry_slippage : ℚ) : Trade :=
  { id := id, asset := asset, entry_time := entry_time, entry_price := entry_price,
    quantity := quantity, entry_fees := entry_fees, entry_slippage := entry_slippage,
    exit_time := none, exit_price := none, exit_fees := 0, exit_slippage := 0,
    profit_loss := none, return_pct := none }

/-- `Trade::close`: fill the exit fields and compute realised P&L and
percentage return (the `Long` branch of the source `match`). -/
def Trade.close (t : Trade) (exit_time : Int)
    (exit_price exit_fees exit_slippage : ℚ) : Trade :=
  let entry_cost := t.entry_price * t.quantity + t.entry_fees
  let exit_value := exit_price * t.quantity - exit_fees
  let pl := exit_value - entry_cost
  { t with exit_time := some exit_time, exit_price := some exit_price,
           exit_fees := exit_fees, exit_slippage := exit_slippage,
           profit_loss := some pl,
           return_pct := some (pl / entry_cost * 100) }

/-- `analytics/tracker.rs`: `TradeTracker`. -/
structure TradeTracker where
  open_trades : List (String × List Trade)
  closed_trades : List Trade
  next_trade_id : ℕ
  equity_curve : List (Int × ℚ)
  initial_capital : ℚ
  total_fees : ℚ
  total_slippage : ℚ
deriving DecidableEq, Repr

namespace TradeTracker

/-- `TradeTracker::new`. -/
def new : TradeTracker :=
  { open_trades := [], closed_trades := [], next_trade_id := 1,
    equity_curve := [], initial_capital := 0, total_fees := 0, total_slippage := 0 }

/-- `TradeTracker::set_initial_capital`. -/
def set_initial_capital (tr : TradeTracker) (capital : ℚ) : TradeTracker :=
  { tr with initial_capital := capital }

/-- `TradeTracker::record_buy`. -/
def record_buy (tr : TradeTracker) (asset : String) (time : Int)
    (price quantity fees slippage : ℚ) : TradeTracker :=
  let tr1 := { tr with total_fees := tr.total_fees + fees,
                       total_slippage := tr.total_slippage + slippage * quantity }
  let trade := Trade.new tr1.next_trade_id asset time price quantity fees slippage
  let existing := (lookupKV tr1.open_trades asset).getD []
  { tr1 with next_trade_id := tr1.next_trade_id + 1,
             open_trades := setKV tr1.open_trades asset (existing ++ [trade]) }

/-- The FIFO consumption loop of `TradeTracker::record_sell`, translated
from the index-bookkeeping Rust loop to a structural recursion.  Returns
`(survivors, partials, fulls)`:
* `survivors` — the open lots left in the symbol's queue, in order
  (the Rust code's `open_positions` after the indices in `trades_to_close`
  have been removed by `Vec::remove`, which preserves order);
* `partials` — the partially-closed clones pushed onto `closed_trades`
  during the loop, in loop order;
* `fulls` — the fully-closed lots, in ascending index order (the Rust code
  removes and pushes them after the loop in descending index order, i.e.
  `fulls.reverse`). -/
def sellLoop (trades : List Trade) (time : Int)
    (price total_fees slippage quantity : ℚ) (remaining_quantity : ℚ) :
    List Trade × List Trade × List Trade :=
  match trades with
  | [] => ([], [], [])
  | t :: rest =>
      if remaining_quantity ≤ 0 then
        (t :: rest, [], [])
      else
        let quantity_to_close := min remaining_quantity t.quantity
        let fee_proportion := quantity_to_close / quantity
        if t.quantity ≤ quantity_to_close then
          let t' := t.close time price (total_fees * fee_proportion)
            (slippage * fee_proportion)
          let r := sellLoop rest time price total_fees slippage quantity
            (remaining_quantity - quantity_to_close)
          (r.1, r.2.1, t' :: r.2.2)
        else
          let closed_entry_fees := t.entry_fees * (quantity_to_close / t.quantity)
          let closed_trade :=
            Trade.close { t with quantity := quantity_to_close,
                                 entry_fees := closed_entry_fees }
              time price (total_fees * fee_proportion) (slippage * fee_proportion)
          let t' := { t with quantity := t.quantity - quantity_to_close,
                             entry_fees := t.entry_fees - closed_entry_fees }
          let r := sellLoop rest time price total_fees slippage quantity
            (remaining_quantity - quantity_to_close)
          (t' :: r.1, closed_trade :: r.2.1, r.2.2)

/-- `TradeTracker::record_sell`. -/
def record_sell (tr : TradeTracker) (asset : String) (time : Int)
    (price quantity fees slippage : ℚ) : TradeTracker :=
  let tr1 := { tr with total_fees := tr.total_fees + fees,
                       total_slippage := tr.total_slippage + slippage * quantity }
  match lookupKV tr1.open_trades asset with
  | none => tr1
  | some open_positions =>
      let r := sellLoop open_positions time price fees slippage quantity quantity
      let open_positions' := r.1
      let closed' := tr1.closed_trades ++ r.2.1 ++ r.2.2.reverse
      let open' :=
        if open_positions'.isEmpty then eraseKV tr1.open_trades asset
        else setKV tr1.open_trades asset open_positions'
      { tr1 with open_trades := open', closed_trades := closed' }

/-- `TradeTracker::record_equity_snapshot`. -/
def record_equity_snapshot (tr : TradeTracker) (time : Int) (total_value : ℚ) :
    TradeTracker :=
  { tr with equity_curve := tr.equity_curve ++ [(time, total_value)] }

end TradeTracker

/-! ### Metrics (`analytics/metrics.rs`), Sharpe ratio

The Sharpe computation uses `f64::sqrt`, so this part of the embedding
lives over `ℝ` with `Real.sqrt` and is `noncomputable`. -/

/-- The per-step returns of an equity curve: the `windows(2)` map of
`calculate_sharpe_ratio` (consecutive pairs are `equity_curve.zip
equity_curve.tail`). -/
noncomputable def sharpe_returns (equity_curve : List (Int × ℝ)) : List ℝ :=
  (equity_curve.zip equity_curve.tail).map (fun w => (w.2.2 - w.1.2) / w.1.2)

/-- `returns.iter().sum() / returns.len()` of `calculate_sharpe_ratio`. -/
noncomputable def returns_mean (returns : List ℝ) : ℝ :=
  returns.sum / returns.length

/-- The population variance computed by `calculate_sharpe_ratio`. -/
noncomputable def returns_variance (returns : List ℝ) : ℝ :=
  (returns.map (fun r => (r - returns_mean returns) ^ 2)).sum / returns.length

/-- `GlobalMetrics::calculate_sharpe_ratio`. -/
noncomputable def calculate_sharpe_ratio (equity_curve : List (Int × ℝ))
    (risk_free_rate : ℝ) : ℝ :=
  if equity_curve.length < 2 then 0
  else
    let returns := sharpe_returns equity_curve
    if returns.isEmpty then 0
    else
      let mean_return := returns_mean returns
      let std_dev := Real.sqrt (returns_variance returns)
      if std_dev = 0 then 0
      else
        let daily_risk_free := risk_free_rate / 252
        (mean_return - daily_risk_free) / std_dev * Real.sqrt 252

/-- The spec's indexed description of the per-step returns:
`r i = (v (i+1) − v i) / v i` over the equity values. -/
noncomputable def spec_returns (values : List ℝ) : List ℝ :=
  (List.range (values.length - 1)).map
    (fun i => (values.getD (i + 1) 0 - values.getD i 0) / values.getD i 0)

/-! ### Strategy sandbox host functions (`strategy/wasm.rs`) -/

/-- Two's-complement wrap-around of an `i32` addition result
(release-profile overflow semantics). -/
def wrap32 (x : Int) : Int :=
  (x + 2 ^ 31) % 2 ^ 32 - 2 ^ 31

/-- Rust `x as usize` for `x : i32` on a 64-bit target: sign-extend, then
reinterpret as unsigned. -/
def i32_as_usize (x : Int) : ℕ :=
  (x % 2 ^ 64).toNat

/-- Rust slice `&data[a..b]`: `none` models the out-of-range panic. -/
def sliceRange {α : Type} (data : List α) (a b : ℕ) : Option (List α) :=
  if a ≤ b ∧ b ≤ data.length then some ((data.drop a).take (b - a)) else none

/-- The guest-memory read
`&data[asset_ptr as usize..(asset_ptr + asset_len) as usize]` performed by
each order-placement host closure in `strategy/wasm.rs` before anything
else is checked. -/
def read_asset_bytes (mem : List ℕ) (asset_ptr asset_len : Int) : Option (List ℕ) :=
  sliceRange mem (i32_as_usize asset_ptr) (i32_as_usize (wrap32 (asset_ptr + asset_len)))

/-- Outcome of one order-placement host call: an order forwarded to
`Broker::place_order`, a silent drop (the closure's early `return` on an
unrecognised direction), or a Rust panic raised by slice indexing. -/
inductive HostCallResult where
  | placed (asset : List ℕ) (direction : OrderDirection) (size : ℚ)
  | dropped
  | panicked
deriving DecidableEq, Repr

/-- The `place_market_order` host closure of `strategy/wasm.rs`.  The asset
is kept as its raw byte list (`String::from_utf8_lossy` is injective on the
valid-UTF-8 strings the engine compares against). -/
def place_market_order (mem : List ℕ) (asset_ptr asset_len direction : Int)
    (size : ℚ) : HostCallResult :=
  match read_asset_bytes mem asset_ptr asset_len with
  | none => HostCallResult.panicked
  | some asset_bytes =>
      match direction with
      | 0 => HostCallResult.placed asset_bytes OrderDirection.Buy size
      | 1 => HostCallResult.placed asset_bytes OrderDirection.Sell size
      | _ => HostCallResult.dropped

/-! ### Concrete sample states used by the closed theorems below -/

/-- A market buy order for one unit of asset `A`, no expiry. -/
def sampleBuyOrder : Order :=
  { asset := "A", direction := .Buy, size := 1, order_type := .Market,
    valid_until := none }

/-- A market sell order for one unit of asset `A`, no expiry. -/
def sampleSellOrder : Order :=
  { asset := "A", direction := .Sell, size := 1, order_type := .Market,
    valid_until := none }

/-- A fresh broker whose slippage pool holds the single draw `+10%`. -/
def poolBroker : Broker :=
  { Broker.new with slippage_values := [1/10] }

/-- A broker with zero cash, a flat fee of 10 per order, and one unit of
asset `A` held at average price 100. -/
def flatFeeSellBroker : Broker :=
  { Broker.new with fee_type := some (.Flat 10),
                    portfolio := [("A", ⟨1, 100⟩)] }

/-- A broker with cash 100, a flat fee of 2, and one unit of asset `A`. -/
def smallFeeSellBroker : Broker :=
  { Broker.new with cash := 100, fee_type := some (.Flat 2),
                    portfolio := [("A", ⟨1, 100⟩)] }

/-- A market buy order of one unit of `A` that expired at time 0. -/
def expiredOrder : Order :=
  { asset := "A", direction := .Buy, size := 1, order_type := .Market,
    valid_until := some 0 }

/-- A limit buy of one unit of `B` at limit 50 (never triggered at open 100). -/
def limitOrderB : Order :=
  { asset := "B", direction := .Buy, size := 1, order_type := .Limit 50,
    valid_until := none }

/-- A limit buy of one unit of `C` at limit 50 (never triggered at open 100). -/
def limitOrderC : Order :=
  { asset := "C", direction := .Buy, size := 1, order_type := .Limit 50,
    valid_until := none }

/-- A broker whose book holds, in insertion order, an expired order and the
two dormant limit orders. -/
def bookBroker : Broker :=
  { Broker.new with orders := [expiredOrder, limitOrderB, limitOrderC] }

/-- A price tick at time 5 with open = close = 100. -/
def sampleTick : OHLCVData :=
  { timestamp := 5, open_price := 100, high := 100, low := 100, close := 100,
    volume := 0 }

/-- A tracker holding one open lot of 2 units of `X`, bought at 10 with
entry fees 4 and per-unit entry slippage 1/2. -/
def lotTracker : TradeTracker :=
  TradeTracker.record_buy TradeTracker.new "X" 0 10 2 4 (1/2)

/-! ## Helper lemmas -/

theorem swapRemove_length {α : Type} (l : List α) (i : ℕ) (h : l ≠ []) :
    (swapRemove l i).length = l.length - 1 := by
  rcases List.exists_cons_of_ne_nil h with ⟨a, t, rfl⟩
  have hg : (a :: t).getLast? = some ((a :: t).getLast (by simp)) :=
    List.getLast?_eq_getLast _ _
  simp [swapRemove, hg]

theorem swapRemove_cons_succ {α : Type} (x : α) (xs : List α) (i : ℕ) (hxs : xs ≠ []) :
    swapRemove (x :: xs) (i + 1) = x :: swapRemove xs i := by
  rcases List.exists_cons_of_ne_nil hxs with ⟨y, ys, rfl⟩
  have h1 : (x :: y :: ys).getLast? = some ((x :: y :: ys).getLast (by simp)) :=
    List.getLast?_eq_getLast _ _
  have h2 : (y :: ys).getLast? = some ((y :: ys).getLast (by simp)) :=
    List.getLast?_eq_getLast _ _
  have h3 : (x :: y :: ys).getLast (by simp) = (y :: ys).getLast (by simp) :=
    List.getLast_cons (by simp)
  simp only [swapRemove, h1, h2, h3, List.set]
  exact List.dropLast_cons_of_ne_nil (List.ne_nil_of_length_pos (by simp))

/-- `swap_remove` keeps exactly the elements other than the removed one,
as a multiset: it is a permutation of plain index removal. -/
theorem swapRemove_perm_eraseIdx {α : Type} (l : List α) (i : ℕ) (h : i < l.length) :
    (swapRemove l i).Perm (l.eraseIdx i) := by
  induction l generalizing i with
  | nil => simp at h
  | cons x xs ih =>
      cases i with
      | zero =>
          cases xs with
          | nil => simp [swapRemove]
          | cons y ys =>
              have hne : (y :: ys : List α) ≠ [] := by simp
              have h1 : (x :: y :: ys).getLast? = some ((x :: y :: ys).getLast (by simp)) :=
                List.getLast?_eq_getLast _ _
              have h3 : (x :: y :: ys).getLast (by simp) = (y :: ys).getLast hne :=
                List.getLast_cons hne
              have hsw : swapRemove (x :: y :: ys) 0
                  = (y :: ys).getLast hne :: (y :: ys).dropLast := by
                simp only [swapRemove, h1, h3, List.set]
                exact List.dropLast_cons_of_ne_nil hne
              rw [hsw]
              show ((y :: ys).getLast hne :: (y :: ys).dropLast).Perm (y :: ys)
              conv_rhs => rw [← List.dropLast_concat_getLast hne]
              exact (List.perm_append_singleton _ _).symm
      | succ i =>
          have hxs : xs ≠ [] := by
            intro hh
            rw [hh] at h
            simp at h
          rw [swapRemove_cons_succ x xs i hxs]
          exact (ih i (by simpa using h)).cons x

theorem swapRemove_multiset_le {α : Type} (l : List α) (i : ℕ) (h : i < l.length) :
    (Multiset.ofList (swapRemove l i)) ≤ Multiset.ofList l := by
  rw [Multiset.coe_eq_coe.mpr (swapRemove_perm_eraseIdx l i h)]
  exact Multiset.coe_le.mpr (List.eraseIdx_sublist l i).subperm

theorem take_set_eq {α : Type} (a : α) (i : ℕ) (l : List α) :
    (l.set i a).take i = l.take i := by
  induction l generalizing i with
  | nil => simp
  | cons x xs ih =>
      cases i with
      | zero => simp
      | succ i => simp [List.set, List.take_succ_cons, ih]

/-- The first `i` entries are untouched by `swap_remove` at slot `i`. -/
theorem swapRemove_take {α : Type} (l : List α) (i : ℕ) (h : i < l.length) :
    (swapRemove l i).take i = l.take i := by
  have hne : l ≠ [] := List.ne_nil_of_length_pos (Nat.lt_of_le_of_lt (Nat.zero_le _) h)
  rcases List.exists_cons_of_ne_nil hne with ⟨a, t, rfl⟩
  have hg : (a :: t).getLast? = some ((a :: t).getLast (by simp)) :=
    List.getLast?_eq_getLast _ _
  simp only [swapRemove, hg, List.dropLast_eq_take, List.take_take, List.length_set]
  rw [min_eq_left (by simp at h ⊢; omega)]
  exact take_set_eq _ _ _

namespace Broker

theorem apply_slippage_fields (b : Broker) (m : ℚ) :
    ((apply_slippage b m).2).cash = b.cash ∧
    ((apply_slippage b m).2).portfolio = b.portfolio ∧
    ((apply_slippage b m).2).orders = b.orders ∧
    ((apply_slippage b m).2).analytics = b.analytics ∧
    ((apply_slippage b m).2).exec_trace = b.exec_trace ∧
    ((apply_slippage b m).2).slippage_values = b.slippage_values ∧
    ((apply_slippage b m).2).fee_type = b.fee_type := by
  unfold apply_slippage
  split <;> simp

theorem apply_slippage_nonempty (b : Broker) (m : ℚ) (h : b.slippage_values ≠ []) :
    (apply_slippage b m).1
        = m * (1 + b.slippage_values.getD (b.slippage_index % b.slippage_values.length) 0) ∧
    ((apply_slippage b m).2).slippage_index = b.slippage_index + 1 := by
  unfold apply_slippage
  rw [if_neg (by simp [h])]
  exact ⟨rfl, rfl⟩

theorem execute_order_orders (b : Broker) (o : Order) (m : ℚ) :
    (execute_order b o m).1.orders = b.orders := by
  have hap := (apply_slippage_fields b m).2.2.1
  unfold execute_order
  dsimp only
  split <;> (try split) <;> (try split) <;> (try split) <;> (try split) <;> simp [hap]

theorem calculate_fees_congr (b1 b2 : Broker) (x : ℚ) (h : b1.fee_type = b2.fee_type) :
    calculate_fees b1 x = calculate_fees b2 x := by
  unfold calculate_fees
  rw [h]

/-- A failing `execute_order` leaves every component untouched except
`total_slippage` (bumped by `slippage_diff × size`) and the slippage
cursor (as advanced by `apply_slippage`). -/
theorem execute_order_error_fields (b : Broker) (o : Order) (m : ℚ) (e : String)
    (h : (execute_order b o m).2 = .error e) :
    (execute_order b o m).1.cash = b.cash ∧
    (execute_order b o m).1.portfolio = b.portfolio ∧
    (execute_order b o m).1.orders = b.orders ∧
    (execute_order b o m).1.analytics.total_fees = b.analytics.total_fees ∧
    (execute_order b o m).1.analytics.total_exec_orders
      = b.analytics.total_exec_orders ∧
    (execute_order b o m).1.exec_trace = b.exec_trace ∧
    (execute_order b o m).1.analytics.total_slippage
      = b.analytics.total_slippage + ((apply_slippage b m).1 - m) * o.size ∧
    (execute_order b o m).1.slippage_index
      = ((apply_slippage b m).2).slippage_index := by
  obtain ⟨h1, h2, h3, h4, h5, h6, h7⟩ := apply_slippage_fields b m
  revert h
  unfold execute_order
  dsimp only
  split <;> (try split) <;> (try split) <;> (try split) <;> (try split) <;> intro h <;>
    first
      | exact Except.noConfusion h
      | exact ⟨h1, h2, h3, by simp [h4], by simp [h4], h5, by simp [h4], rfl⟩

/-- A successful `execute_order` appends the executed order together with
its slipped execution price to the execution trace. -/
theorem execute_order_ok_exec_trace (b : Broker) (o : Order) (m : ℚ)
    (h : (execute_order b o m).2 = .ok ()) :
    (execute_order b o m).1.exec_trace
      = b.exec_trace ++ [(o, (apply_slippage b m).1)] := by
  obtain ⟨h1, h2, h3, h4, h5, h6, h7⟩ := apply_slippage_fields b m
  revert h
  unfold execute_order
  dsimp only
  split <;> (try split) <;> (try split) <;> (try split) <;> (try split) <;> intro h <;>
    first
      | exact Except.noConfusion h
      | simp [h5]

/-- `execute_order` advances the slippage cursor exactly as
`apply_slippage` does, on every path (success or failure). -/
theorem execute_order_slippage_index (b : Broker) (o : Order) (m : ℚ) :
    (execute_order b o m).1.slippage_index
      = ((apply_slippage b m).2).slippage_index := by
  unfold execute_order
  dsimp only
  split <;> (try split) <;> (try split) <;> (try split) <;> (try split) <;> simp

/-! One-step unfolding equations for the `handle_unfulfilled_orders` loop. -/

theorem handleLoop_terminal (t : Int) (p : ℚ) (b : Broker) (i : ℕ)
    (h : ¬ i < b.orders.length) : handleLoop t p b i = b := by
  unfold handleLoop
  exact dif_neg h

theorem handleLoop_expired (t : Int) (p : ℚ) (b : Broker) (i : ℕ)
    (h : i < b.orders.length)
    (he : is_expired t (b.orders.get ⟨i, h⟩) = true) :
    handleLoop t p b i
      = handleLoop t p { b with orders := swapRemove b.orders i } i := by
  conv_lhs => rw [handleLoop]
  rw [dif_pos h]
  simp only [he, if_true]

theorem handleLoop_skip (t : Int) (p : ℚ) (b : Broker) (i : ℕ)
    (h : i < b.orders.length)
    (he : is_expired t (b.orders.get ⟨i, h⟩) = false)
    (ht : order_triggered (b.orders.get ⟨i, h⟩) p = false) :
    handleLoop t p b i = handleLoop t p b (i + 1) := by
  conv_lhs => rw [handleLoop]
  rw [dif_pos h]
  simp only [he, ht, Bool.false_eq_true, if_false]

theorem handleLoop_exec_ok (t : Int) (p : ℚ) (b : Broker) (i : ℕ) (u : Unit)
    (h : i < b.orders.length)
    (he : is_expired t (b.orders.get ⟨i, h⟩) = false)
    (ht : order_triggered (b.orders.get ⟨i, h⟩) p = true)
    (hE : (execute_order b (b.orders.get ⟨i, h⟩) p).2 = .ok u) :
    handleLoop t p b i
      = handleLoop t p
          { (execute_order b (b.orders.get ⟨i, h⟩) p).1 with
            analytics := { (execute_order b (b.orders.get ⟨i, h⟩) p).1.analytics with
              total_exec_orders :=
                (execute_order b (b.orders.get ⟨i, h⟩) p).1.analytics.total_exec_orders + 1 },
            orders := swapRemove (execute_order b (b.orders.get ⟨i, h⟩) p).1.orders i } i := by
  conv_lhs => rw [handleLoop]
  rw [dif_pos h]
  simp only [he, ht, hE, Bool.false_eq_true, if_false, if_true]

theorem handleLoop_exec_err (t : Int) (p : ℚ) (b : Broker) (i : ℕ) (e : String)
    (h : i < b.orders.length)
    (he : is_expired t (b.orders.get ⟨i, h⟩) = false)
    (ht : order_triggered (b.orders.get ⟨i, h⟩) p = true)
    (hE : (execute_order b (b.orders.get ⟨i, h⟩) p).2 = .error e) :
    handleLoop t p b i
      = handleLoop t p (execute_order b (b.orders.get ⟨i, h⟩) p).1 (i + 1) := by
  conv_lhs => rw [handleLoop]
  rw [dif_pos h]
  simp only [he, ht, hE, Bool.false_eq_true, if_false, if_true]

/-- Over a whole tick, the loop only ever removes orders: the resulting
book is a sub-multiset of the incoming book. -/
theorem handleLoop_orders_multiset_le (t : Int) (p : ℚ) (b : Broker) (i : ℕ) :
    Multiset.ofList (handleLoop t p b i).orders ≤ Multiset.ofList b.orders := by
  induction b, i using Broker.handleLoop.induct t p with
  | case1 b i h order he ih =>
      rw [handleLoop_expired t p b i h he]
      exact le_trans ih (swapRemove_multiset_le b.orders i h)
  | case2 b i h order he ht u hE ih =>
      rw [handleLoop_exec_ok t p b i u h (by simpa using he) ht hE]
      refine le_trans ih ?_
      show Multiset.ofList (swapRemove (execute_order b (b.orders.get ⟨i, h⟩) p).1.orders i) ≤ _
      rw [execute_order_orders b (b.orders.get ⟨i, h⟩) p]
      exact swapRemove_multiset_le b.orders i h
  | case3 b i h order he ht e hE ih =>
      rw [handleLoop_exec_err t p b i e h (by simpa using he) ht hE]
      refine le_trans ih ?_
      rw [execute_order_orders b (b.orders.get ⟨i, h⟩) p]
  | case4 b i h order he ht ih =>
      rw [handleLoop_skip t p b i h (by simpa using he) (by simpa using ht)]
      exact ih
  | case5 b i h =>
      rw [handleLoop_terminal t p b i h]

end Broker

/-! ## Claims -/

/-- **C1, counterexample.**  The claim says a failed `execute_order` leaves
the broker state unchanged, `total_slippage` and the slippage-pool cursor
included.  On `poolBroker` (cash 0, pool `[1/10]`), a market buy of one unit
at price 10 fails with `Not enough cash`, yet `total_slippage` has become 1
(it was 0) and `slippage_index` has become 1 (it was 0). -/
theorem execute_order_failure_mutates_slippage_state :
    (Broker.execute_order poolBroker sampleBuyOrder 10).2 = .error "Not enough cash" ∧
    (Broker.execute_order poolBroker sampleBuyOrder 10).1 ≠ poolBroker ∧
    (Broker.execute_order poolBroker sampleBuyOrder 10).1.analytics.total_slippage = 1 ∧
    poolBroker.analytics.total_slippage = 0 ∧
    (Broker.execute_order poolBroker sampleBuyOrder 10).1.slippage_index = 1 ∧
    poolBroker.slippage_index = 0 := by
  have hidx : (Broker.execute_order poolBroker sampleBuyOrder 10).1.slippage_index = 1 := by
    norm_num [Broker.execute_order, Broker.apply_slippage, Broker.calculate_fees,
      poolBroker, sampleBuyOrder, Broker.new, BrokerAnalytics.new]
  refine ⟨?_, ?_, ?_, rfl, hidx, rfl⟩
  · norm_num [Broker.execute_order, Broker.apply_slippage, Broker.calculate_fees,
      poolBroker, sampleBuyOrder, Broker.new, BrokerAnalytics.new]
  · intro h
    rw [h] at hidx
    simp [poolBroker, Broker.new] at hidx
  · norm_num [Broker.execute_order, Broker.apply_slippage, Broker.calculate_fees,
      poolBroker, sampleBuyOrder, Broker.new, BrokerAnalytics.new]

/-- **C1, amended.**  When `execute_order` fails, `cash`, the portfolio, the
order list, `total_fees`, `total_exec_orders` and the execution trace are
unchanged — but `total_slippage` has still been increased by
`slippage_diff × size` and the slippage-pool cursor has still advanced
(these happen before any failure check). -/
theorem execute_order_failure_preserves_core_state
    (b : Broker) (o : Order) (m : ℚ) (e : String)
    (h : (Broker.execute_order b o m).2 = .error e) :
    (Broker.execute_order b o m).1.cash = b.cash ∧
    (Broker.execute_order b o m).1.portfolio = b.portfolio ∧
    (Broker.execute_order b o m).1.orders = b.orders ∧
    (Broker.execute_order b o m).1.analytics.total_fees = b.analytics.total_fees ∧
    (Broker.execute_order b o m).1.analytics.total_exec_orders
      = b.analytics.total_exec_orders ∧
    (Broker.execute_order b o m).1.exec_trace = b.exec_trace ∧
    (Broker.execute_order b o m).1.analytics.total_slippage
      = b.analytics.total_slippage + ((Broker.apply_slippage b m).1 - m) * o.size ∧
    (Broker.execute_order b o m).1.slippage_index
      = ((Broker.apply_slippage b m).2).slippage_index :=
  Broker.execute_order_error_fields b o m e h

/-- **C1, witness** for `execute_order_failure_preserves_core_state` at the
concrete failing buy on `poolBroker`. -/
theorem execute_order_failure_preserves_core_state_witness :
    (Broker.execute_order poolBroker sampleBuyOrder 10).2 = .error "Not enough cash" ∧
    ((Broker.execute_order poolBroker sampleBuyOrder 10).1.cash = poolBroker.cash ∧
     (Broker.execute_order poolBroker sampleBuyOrder 10).1.portfolio = poolBroker.portfolio ∧
     (Broker.execute_order poolBroker sampleBuyOrder 10).1.orders = poolBroker.orders ∧
     (Broker.execute_order poolBroker sampleBuyOrder 10).1.analytics.total_fees
       = poolBroker.analytics.total_fees ∧
     (Broker.execute_order poolBroker sampleBuyOrder 10).1.analytics.total_exec_orders
       = poolBroker.analytics.total_exec_orders ∧
     (Broker.execute_order poolBroker sampleBuyOrder 10).1.exec_trace
       = poolBroker.exec_trace ∧
     (Broker.execute_order poolBroker sampleBuyOrder 10).1.analytics.total_slippage
       = poolBroker.analytics.total_slippage
         + ((Broker.apply_slippage poolBroker 10).1 - 10) * sampleBuyOrder.size ∧
     (Broker.execute_order poolBroker sampleBuyOrder 10).1.slippage_index
       = ((Broker.apply_slippage poolBroker 10).2).slippage_index) := by
  have herr : (Broker.execute_order poolBroker sampleBuyOrder 10).2
      = .error "Not enough cash" := by
    norm_num [Broker.execute_order, Broker.apply_slippage, Broker.calculate_fees,
      poolBroker, sampleBuyOrder, Broker.new, BrokerAnalytics.new]
  exact ⟨herr, execute_order_failure_preserves_core_state poolBroker sampleBuyOrder 10
    "Not enough cash" herr⟩

/-- **C2, counterexample.**  The claim says every successful execution
leaves `cash ≥ 0`.  On `flatFeeSellBroker` (cash 0, flat fee 10, holding one
unit of `A`), selling one unit at market price 5 succeeds (proceeds 5,
fee 10) and leaves `cash = −5 < 0`. -/
theorem execute_order_sell_can_overdraw_cash :
    0 ≤ flatFeeSellBroker.cash ∧
    (Broker.execute_order flatFeeSellBroker sampleSellOrder 5).2 = .ok () ∧
    (Broker.execute_order flatFeeSellBroker sampleSellOrder 5).1.cash < 0 := by
  refine ⟨le_refl 0, ?_, ?_⟩ <;>
    norm_num [Broker.execute_order, Broker.apply_slippage, Broker.calculate_fees,
      flatFeeSellBroker, sampleSellOrder, Broker.new, BrokerAnalytics.new,
      lookupKV, setKV, eraseKV, Position.new, Position.update, Position.remove]

/-- **C2, amended.**  After a successful `execute_order` starting from
non-negative cash, the resulting cash is non-negative for every Buy; for a
Sell it is non-negative provided the fee charged on the proceeds does not
exceed the proceeds (the code never checks this, so a flat fee larger than
the proceeds can push cash below zero). -/
theorem execute_order_success_cash_nonneg
    (b : Broker) (o : Order) (m : ℚ)
    (hc : 0 ≤ b.cash) (hs : (Broker.execute_order b o m).2 = .ok ()) :
    (o.direction = .Buy → 0 ≤ (Broker.execute_order b o m).1.cash) ∧
    (o.direction = .Sell →
      Broker.calculate_fees b (o.size * (Broker.apply_slippage b m).1)
          ≤ o.size * (Broker.apply_slippage b m).1 →
      0 ≤ (Broker.execute_order b o m).1.cash) := by
  obtain ⟨h1, h2, h3, h4, h5, h6, h7⟩ := Broker.apply_slippage_fields b m
  revert hs
  unfold Broker.execute_order
  dsimp only
  cases hD : o.direction with
  | Buy =>
      dsimp only
      split
      · intro hs
        refine ⟨fun _hB => ?_, fun hS => by simp at hS⟩
        rename_i hcash
        rw [h1] at hcash
        dsimp only
        rw [h1]
        linarith
      · intro hs
        exact absurd hs (by simp)
  | Sell =>
      dsimp only
      split
      · intro hs
        exact absurd hs (by simp)
      · split
        · intro hs
          exact absurd hs (by simp)
        · split
          · intro hs
            exact absurd hs (by simp)
          · intro hs
            refine ⟨fun hB => by simp at hB, fun _ hf => ?_⟩
            split <;>
              · dsimp only
                rw [h1]
                unfold Broker.calculate_fees at hf ⊢
                dsimp only
                rw [h7]
                linarith

/-- **C2, witness** for `execute_order_success_cash_nonneg`: a successful
fee-under-proceeds sell on `smallFeeSellBroker`. -/
theorem execute_order_success_cash_nonneg_witness :
    0 ≤ smallFeeSellBroker.cash ∧
    (Broker.execute_order smallFeeSellBroker sampleSellOrder 5).2 = .ok () ∧
    ((sampleSellOrder.direction = .Buy →
        0 ≤ (Broker.execute_order smallFeeSellBroker sampleSellOrder 5).1.cash) ∧
     (sampleSellOrder.direction = .Sell →
        Broker.calculate_fees smallFeeSellBroker
            (sampleSellOrder.size * (Broker.apply_slippage smallFeeSellBroker 5).1)
          ≤ sampleSellOrder.size * (Broker.apply_slippage smallFeeSellBroker 5).1 →
        0 ≤ (Broker.execute_order smallFeeSellBroker sampleSellOrder 5).1.cash)) := by
  have hok : (Broker.execute_order smallFeeSellBroker sampleSellOrder 5).2 = .ok () := by
    norm_num [Broker.execute_order, Broker.apply_slippage, Broker.calculate_fees,
      smallFeeSellBroker, sampleSellOrder, Broker.new, BrokerAnalytics.new,
      lookupKV, setKV, eraseKV, Position.new, Position.update, Position.remove]
  have hc : (0:ℚ) ≤ smallFeeSellBroker.cash := by
    norm_num [smallFeeSellBroker, Broker.new]
  exact ⟨hc, hok,
    execute_order_success_cash_nonneg smallFeeSellBroker sampleSellOrder 5 hc hok⟩

/-- **C6.**  With a non-empty slippage pool: every call of `execute_order`
advances the pool cursor by exactly one; a successful execution records the
price `open × (1 + s)` where `s` is the pool value at the old cursor
(wrapping modulo the pool length); `set_slippage` installs the drawn pool
and resets the cursor; and the whole order-processing step is a pure
function of the broker state, so identical states yield identical results
(deterministic replay). -/
theorem execution_price_round_robin (b : Broker) (o : Order) (m : ℚ)
    (h : b.slippage_values ≠ []) :
    (Broker.execute_order b o m).1.slippage_index = b.slippage_index + 1 ∧
    ((Broker.execute_order b o m).2 = .ok () →
      (Broker.execute_order b o m).1.exec_trace
        = b.exec_trace
            ++ [(o, m * (1 + b.slippage_values.getD
                  (b.slippage_index % b.slippage_values.length) 0))]) ∧
    (∀ (mn mx : ℚ) (draws : List ℚ),
      (Broker.set_slippage b mn mx draws).slippage_values = draws ∧
      (Broker.set_slippage b mn mx draws).slippage_index = 0) ∧
    (∀ b₂ : Broker, b₂ = b → ∀ (t : Int) (price : OHLCVData),
      Broker.handle_unfulfilled_orders b₂ t price
        = Broker.handle_unfulfilled_orders b t price) := by
  obtain ⟨hp, hi⟩ := Broker.apply_slippage_nonempty b m h
  refine ⟨?_, ?_, fun mn mx draws => ⟨rfl, rfl⟩, fun b₂ hb _ _ => by rw [hb]⟩
  · rw [Broker.execute_order_slippage_index, hi]
  · intro hok
    rw [Broker.execute_order_ok_exec_trace b o m hok, hp]

/-- **C6, witness** for `execution_price_round_robin` on `poolBroker`
(pool `[1/10]`) and a failing buy: the cursor still advances by one. -/
theorem execution_price_round_robin_witness :
    poolBroker.slippage_values ≠ [] ∧
    ((Broker.execute_order poolBroker sampleBuyOrder 10).1.slippage_index
        = poolBroker.slippage_index + 1 ∧
     ((Broker.execute_order poolBroker sampleBuyOrder 10).2 = .ok () →
       (Broker.execute_order poolBroker sampleBuyOrder 10).1.exec_trace
         = poolBroker.exec_trace
             ++ [(sampleBuyOrder, 10 * (1 + poolBroker.slippage_values.getD
                   (poolBroker.slippage_index % poolBroker.slippage_values.length) 0))]) ∧
     (∀ (mn mx : ℚ) (draws : List ℚ),
       (Broker.set_slippage poolBroker mn mx draws).slippage_values = draws ∧
       (Broker.set_slippage poolBroker mn mx draws).slippage_index = 0) ∧
     (∀ b₂ : Broker, b₂ = poolBroker → ∀ (t : Int) (price : OHLCVData),
       Broker.handle_unfulfilled_orders b₂ t price
         = Broker.handle_unfulfilled_orders poolBroker t price)) :=
  ⟨by decide, execution_price_round_robin poolBroker sampleBuyOrder 10 (by decide)⟩

/-- **C3, counterexample.**  The claim says removal preserves the relative
insertion order of the remaining orders.  On `bookBroker` (book
`[expiredOrder, limitOrderB, limitOrderC]`, open 100, neither limit order
triggered), dropping the expired head order leaves the book as
`[limitOrderC, limitOrderB]` — the last order was swapped into the front
slot, so the two survivors are in reversed insertion order. -/
theorem handle_unfulfilled_orders_reorders_book :
    (Broker.handle_unfulfilled_orders bookBroker 5 sampleTick).orders
      = [limitOrderC, limitOrderB] ∧
    [limitOrderC, limitOrderB] ≠ [limitOrderB, limitOrderC] := by
  constructor
  · have e1 : Broker.handle_unfulfilled_orders bookBroker 5 sampleTick
        = Broker.handleLoop 5 100
            { bookBroker with orders := swapRemove bookBroker.orders 0 } 0 := by
      unfold Broker.handle_unfulfilled_orders
      exact Broker.handleLoop_expired 5 100 bookBroker 0 (by decide) (by decide)
    have e2 : Broker.handleLoop 5 100
          { bookBroker with orders := swapRemove bookBroker.orders 0 } 0
        = Broker.handleLoop 5 100
            { bookBroker with orders := swapRemove bookBroker.orders 0 } 1 :=
      Broker.handleLoop_skip 5 100 _ 0 (by decide) (by decide) (by decide)
    have e3 : Broker.handleLoop 5 100
          { bookBroker with orders := swapRemove bookBroker.orders 0 } 1
        = Broker.handleLoop 5 100
            { bookBroker with orders := swapRemove bookBroker.orders 0 } 2 :=
      Broker.handleLoop_skip 5 100 _ 1 (by decide) (by decide) (by decide)
    have e4 : Broker.handleLoop 5 100
          { bookBroker with orders := swapRemove bookBroker.orders 0 } 2
        = { bookBroker with orders := swapRemove bookBroker.orders 0 } :=
      Broker.handleLoop_terminal 5 100 _ 2 (by decide)
    rw [e1, e2, e3, e4]
    decide
  · decide

/-- **C3, amended.**  `handle_unfulfilled_orders` walks the book from the
front, but removal (on fill or expiry) is `Vec::swap_remove`: the last
pending order is moved into the vacated slot.  The remaining orders are
preserved exactly as a multiset — removal at slot `i` is a permutation of
deleting index `i`, and a whole tick only ever removes orders — but their
relative insertion order is in general not preserved, so the book does not
stay sorted by placement time. -/
theorem handle_unfulfilled_orders_multiset_semantics
    (b : Broker) (t : Int) (price : OHLCVData) (i : ℕ)
    (h : i < b.orders.length) :
    (swapRemove b.orders i).Perm (b.orders.eraseIdx i) ∧
    Multiset.ofList (Broker.handle_unfulfilled_orders b t price).orders
      ≤ Multiset.ofList b.orders :=
  ⟨swapRemove_perm_eraseIdx b.orders i h,
   Broker.handleLoop_orders_multiset_le t price.open_price b 0⟩

/-- **C3, witness** for `handle_unfulfilled_orders_multiset_semantics` on
`bookBroker` at slot 0. -/
theorem handle_unfulfilled_orders_multiset_semantics_witness :
    0 < bookBroker.orders.length ∧
    ((swapRemove bookBroker.orders 0).Perm (bookBroker.orders.eraseIdx 0) ∧
     Multiset.ofList (Broker.handle_unfulfilled_orders bookBroker 5 sampleTick).orders
       ≤ Multiset.ofList bookBroker.orders) :=
  ⟨by decide,
   handle_unfulfilled_orders_multiset_semantics bookBroker 5 sampleTick 0 (by decide)⟩

/-- Every trace entry after an `execute_order` call either predates the
call or names the executed order. -/
theorem Broker.execute_order_exec_trace_mem (b : Broker) (o : Order) (m : ℚ) :
    ∀ e ∈ (Broker.execute_order b o m).1.exec_trace, e ∈ b.exec_trace ∨ e.1 = o := by
  cases hres : (Broker.execute_order b o m).2 with
  | error s =>
      intro e he
      rw [(Broker.execute_order_error_fields b o m s hres).2.2.2.2.2.1] at he
      exact Or.inl he
  | ok u =>
      cases u
      intro e he
      rw [Broker.execute_order_ok_exec_trace b o m hres] at he
      rcases List.mem_append.mp he with h1 | h2
      · exact Or.inl h1
      · right
        rw [List.mem_singleton.mp h2]

/-- Loop invariant behind C5: provided the already-examined prefix holds no
expired order, after the loop (a) every order still in the book is
unexpired, and (b) every execution recorded during the loop is of an
unexpired order. -/
theorem Broker.handleLoop_expiry_invariant (t : Int) (p : ℚ) (b : Broker) (i : ℕ) :
    (∀ o ∈ b.orders.take i, Broker.is_expired t o = false) →
    (∀ o ∈ (Broker.handleLoop t p b i).orders, Broker.is_expired t o = false) ∧
    (∀ e ∈ (Broker.handleLoop t p b i).exec_trace,
       e ∈ b.exec_trace ∨ Broker.is_expired t e.1 = false) := by
  induction b, i using Broker.handleLoop.induct t p with
  | case1 b i h order he ih =>
      intro hpre
      rw [Broker.handleLoop_expired t p b i h he]
      exact ih (by rw [swapRemove_take b.orders i h]; exact hpre)
  | case2 b i h order he ht u hE ih =>
      intro hpre
      rw [Broker.handleLoop_exec_ok t p b i u h (by simpa using he) ht hE]
      have hords : (Broker.execute_order b (b.orders.get ⟨i, h⟩) p).1.orders = b.orders :=
        Broker.execute_order_orders b (b.orders.get ⟨i, h⟩) p
      have hres := ih (by
        show ∀ o ∈ (swapRemove (Broker.execute_order b (b.orders.get ⟨i, h⟩) p).1.orders i).take i, _
        rw [hords, swapRemove_take b.orders i h]
        exact hpre)
      refine ⟨hres.1, fun e hee => ?_⟩
      rcases hres.2 e hee with hin | hnx
      · rcases Broker.execute_order_exec_trace_mem b (b.orders.get ⟨i, h⟩) p e hin with h1 | h2
        · exact Or.inl h1
        · right
          rw [h2]
          simpa using he
      · exact Or.inr hnx
  | case3 b i h order he ht s hE ih =>
      intro hpre
      rw [Broker.handleLoop_exec_err t p b i s h (by simpa using he) ht hE]
      have hords : (Broker.execute_order b (b.orders.get ⟨i, h⟩) p).1.orders = b.orders :=
        Broker.execute_order_orders b (b.orders.get ⟨i, h⟩) p
      have hres := ih (by
        intro o ho
        rw [hords, List.take_succ] at ho
        rcases List.mem_append.mp ho with h1 | h2
        · exact hpre o h1
        · have : o = b.orders.get ⟨i, h⟩ := by
            rw [List.getElem?_eq_getElem h] at h2
            simpa using h2
          rw [this]
          simpa using he)
      refine ⟨hres.1, fun e hee => ?_⟩
      rcases hres.2 e hee with hin | hnx
      · left
        rwa [(Broker.execute_order_error_fields b (b.orders.get ⟨i, h⟩) p s hE).2.2.2.2.2.1]
          at hin
      · exact Or.inr hnx
  | case4 b i h order he ht ih =>
      intro hpre
      rw [Broker.handleLoop_skip t p b i h (by simpa using he) (by simpa using ht)]
      refine ih ?_
      intro o ho
      rw [List.take_succ] at ho
      rcases List.mem_append.mp ho with h1 | h2
      · exact hpre o h1
      · have : o = b.orders.get ⟨i, h⟩ := by
          rw [List.getElem?_eq_getElem h] at h2
          simpa using h2
        rw [this]
        simpa using he
  | case5 b i h =>
      intro hpre
      rw [Broker.handleLoop_terminal t p b i h]
      rw [List.take_of_length_le (le_of_not_lt h)] at hpre
      exact ⟨hpre, fun e he => Or.inl he⟩

/-- **C5.**  An order whose `valid_until` lies strictly before the current
tick is dropped without executing: it is absent from the post-tick book and
contributes no new execution; expiry is monotone, so it can never execute
at a later tick either.  An order whose `valid_until` equals the current
tick is not expired and stays eligible. -/
theorem expired_orders_never_execute (b : Broker) (t : Int) (price : OHLCVData)
    (o : Order) (v : Int) (hv : o.valid_until = some v) :
    (v < t →
      o ∉ (Broker.handle_unfulfilled_orders b t price).orders ∧
      (∀ q : ℚ, (o, q) ∈ (Broker.handle_unfulfilled_orders b t price).exec_trace →
         (o, q) ∈ b.exec_trace) ∧
      (∀ u : Int, t ≤ u → v < u)) ∧
    (v = t → Broker.is_expired t o = false) := by
  have hinv := Broker.handleLoop_expiry_invariant t price.open_price b 0 (by simp)
  constructor
  · intro hlt
    have hexp : Broker.is_expired t o = true := by simp [Broker.is_expired, hv, hlt]
    refine ⟨?_, ?_, fun u hu => lt_of_lt_of_le hlt hu⟩
    · intro hmem
      have hfalse := hinv.1 o hmem
      rw [hexp] at hfalse
      exact Bool.noConfusion hfalse
    · intro q hq
      rcases hinv.2 (o, q) hq with h1 | h2
      · exact h1
      · rw [show ((o, q).1 : Order) = o from rfl, hexp] at h2
        exact absurd h2 (by simp)
  · intro hvt
    subst hvt
    simp [Broker.is_expired, hv]

/-- **C5, witness** for `expired_orders_never_execute`: `expiredOrder`
(valid until 0) inside `bookBroker` at tick time 5. -/
theorem expired_orders_never_execute_witness :
    ((0:Int) < 5 →
      expiredOrder ∉ (Broker.handle_unfulfilled_orders bookBroker 5 sampleTick).orders ∧
      (∀ q : ℚ,
         (expiredOrder, q)
             ∈ (Broker.handle_unfulfilled_orders bookBroker 5 sampleTick).exec_trace →
         (expiredOrder, q) ∈ bookBroker.exec_trace) ∧
      (∀ u : Int, 5 ≤ u → 0 < u)) ∧
    ((0:Int) = 5 → Broker.is_expired 5 expiredOrder = false) :=
  expired_orders_never_execute bookBroker 5 sampleTick expiredOrder 0 rfl

theorem lookup_setKV_self {α : Type} (l : List (String × α)) (k : String) (v : α) :
    lookupKV (setKV l k v) k = some v := by
  induction l with
  | nil => simp [setKV, lookupKV]
  | cons hd tl ih =>
      obtain ⟨k', v'⟩ := hd
      by_cases hk : k' = k
      · simp [setKV, lookupKV, hk]
      · simp [setKV, lookupKV, hk, ih]

theorem eraseKV_setKV {α : Type} (l : List (String × α)) (k : String) (v : α)
    (h : lookupKV l k = none) : eraseKV (setKV l k v) k = l := by
  induction l with
  | nil => simp [setKV, eraseKV]
  | cons hd tl ih =>
      obtain ⟨k', v'⟩ := hd
      by_cases hk : k' = k
      · rw [lookupKV, if_pos hk] at h
        exact Option.noConfusion h
      · rw [lookupKV, if_neg hk] at h
        rw [setKV, if_neg hk, eraseKV, if_neg hk, ih h]

/-- **C10.**  Both tracker event handlers accumulate the event's fees and
`slippage × quantity` into the running totals unconditionally: the
accumulation precedes the early return, so a sell for a symbol with no
open lots still increments both totals and changes nothing else. -/
theorem tracker_totals_unconditional (tr : TradeTracker) (asset : String) (time : Int)
    (price quantity fees slippage : ℚ) :
    (TradeTracker.record_buy tr asset time price quantity fees slippage).total_fees
      = tr.total_fees + fees ∧
    (TradeTracker.record_buy tr asset time price quantity fees slippage).total_slippage
      = tr.total_slippage + slippage * quantity ∧
    (TradeTracker.record_sell tr asset time price quantity fees slippage).total_fees
      = tr.total_fees + fees ∧
    (TradeTracker.record_sell tr asset time price quantity fees slippage).total_slippage
      = tr.total_slippage + slippage * quantity ∧
    (lookupKV tr.open_trades asset = none →
      TradeTracker.record_sell tr asset time price quantity fees slippage
        = { tr with total_fees := tr.total_fees + fees,
                    total_slippage := tr.total_slippage + slippage * quantity }) := by
  refine ⟨rfl, rfl, ?_, ?_, ?_⟩
  · unfold TradeTracker.record_sell
    dsimp only
    split <;> rfl
  · unfold TradeTracker.record_sell
    dsimp only
    split <;> rfl
  · intro h
    unfold TradeTracker.record_sell
    dsimp only
    rw [h]

/-- **C10, witness** for `tracker_totals_unconditional` on a fresh tracker:
a sell of 3 units with fees 7 and slippage 1/2 that matches no open lot. -/
theorem tracker_totals_unconditional_witness :
    (TradeTracker.record_buy TradeTracker.new "X" 0 10 3 7 (1/2)).total_fees
      = TradeTracker.new.total_fees + 7 ∧
    (TradeTracker.record_buy TradeTracker.new "X" 0 10 3 7 (1/2)).total_slippage
      = TradeTracker.new.total_slippage + (1/2) * 3 ∧
    (TradeTracker.record_sell TradeTracker.new "X" 0 10 3 7 (1/2)).total_fees
      = TradeTracker.new.total_fees + 7 ∧
    (TradeTracker.record_sell TradeTracker.new "X" 0 10 3 7 (1/2)).total_slippage
      = TradeTracker.new.total_slippage + (1/2) * 3 ∧
    (lookupKV TradeTracker.new.open_trades "X" = none →
      TradeTracker.record_sell TradeTracker.new "X" 0 10 3 7 (1/2)
        = { TradeTracker.new with
            total_fees := TradeTracker.new.total_fees + 7,
            total_slippage := TradeTracker.new.total_slippage + (1/2) * 3 }) :=
  tracker_totals_unconditional TradeTracker.new "X" 0 10 3 7 (1/2)

theorem sellLoop_nonpos (time : Int) (price F S Q : ℚ) (l : List Trade) (r : ℚ)
    (hr : r ≤ 0) : TradeTracker.sellLoop l time price F S Q r = (l, [], []) := by
  cases l with
  | nil => rfl
  | cons t rest =>
      rw [TradeTracker.sellLoop, if_pos hr]

/-- **C9.**  Buying `n` units at price `P` and later selling all `n` at the
same execution price, with zero fees and slippage on both sides, on a
tracker with no open lots for the symbol, closes exactly one trade, of
quantity `n` with `profit_loss = 0` and `return_pct = 0`, and leaves no
open lot behind. -/
theorem round_trip_zero_cost (tr : TradeTracker) (asset : String) (t1 t2 : Int)
    (P n : ℚ) (hn : 0 < n) (hP : 0 < P)
    (hopen : lookupKV tr.open_trades asset = none) :
    ((TradeTracker.record_sell (TradeTracker.record_buy tr asset t1 P n 0 0)
        asset t2 P n 0 0).closed_trades.map
          (fun c => (c.quantity, c.profit_loss, c.return_pct))
      = tr.closed_trades.map (fun c => (c.quantity, c.profit_loss, c.return_pct))
          ++ [(n, some 0, some 0)]) ∧
    lookupKV (TradeTracker.record_sell (TradeTracker.record_buy tr asset t1 P n 0 0)
        asset t2 P n 0 0).open_trades asset = none := by
  have hbuy : TradeTracker.record_buy tr asset t1 P n 0 0
      = { tr with total_fees := tr.total_fees + 0,
                  total_slippage := tr.total_slippage + 0 * n,
                  next_trade_id := tr.next_trade_id + 1,
                  open_trades := setKV tr.open_trades asset
                    [Trade.new tr.next_trade_id asset t1 P n 0 0] } := by
    unfold TradeTracker.record_buy
    dsimp only
    rw [hopen]
    rfl
  have hlook : lookupKV (setKV tr.open_trades asset
      [Trade.new tr.next_trade_id asset t1 P n 0 0]) asset
      = some [Trade.new tr.next_trade_id asset t1 P n 0 0] :=
    lookup_setKV_self tr.open_trades asset _
  have hloop : TradeTracker.sellLoop [Trade.new tr.next_trade_id asset t1 P n 0 0]
        t2 P 0 0 n n
      = ([], [],
         [Trade.close (Trade.new tr.next_trade_id asset t1 P n 0 0) t2 P
            (0 * (n / n)) (0 * (n / n))]) := by
    rw [TradeTracker.sellLoop, if_neg (not_le.mpr hn)]
    have hq : (Trade.new tr.next_trade_id asset t1 P n 0 0).quantity = n := rfl
    rw [hq, min_self, if_pos (le_refl n)]
    rfl
  rw [hbuy]
  unfold TradeTracker.record_sell
  dsimp only
  rw [hlook]
  dsimp only
  rw [hloop]
  dsimp only
  constructor
  · rw [List.map_append]
    have hpl : P * n - 0 * (n / n) - (P * n + 0) = 0 := by ring
    congr 1
    · rw [List.append_nil]
    · rw [List.reverse_singleton, List.map_cons, List.map_nil]
      simp only [Trade.close, Trade.new]
      rw [hpl]
      norm_num
  · simp only [List.isEmpty_nil, if_true]
    rw [eraseKV_setKV tr.open_trades asset _ hopen]
    exact hopen

/-- **C9, witness** for `round_trip_zero_cost`: buy 2 at 5, sell 2 at 5 on
a fresh tracker. -/
theorem round_trip_zero_cost_witness :
    (0:ℚ) < 2 ∧ (0:ℚ) < 5 ∧ lookupKV TradeTracker.new.open_trades "X" = none ∧
    (((TradeTracker.record_sell (TradeTracker.record_buy TradeTracker.new "X" 0 5 2 0 0)
        "X" 1 5 2 0 0).closed_trades.map
          (fun c => (c.quantity, c.profit_loss, c.return_pct))
      = TradeTracker.new.closed_trades.map
          (fun c => (c.quantity, c.profit_loss, c.return_pct)) ++ [((2:ℚ), some 0, some 0)]) ∧
     lookupKV (TradeTracker.record_sell
        (TradeTracker.record_buy TradeTracker.new "X" 0 5 2 0 0)
        "X" 1 5 2 0 0).open_trades "X" = none) :=
  ⟨by norm_num, by norm_num, rfl,
   round_trip_zero_cost TradeTracker.new "X" 0 1 5 2 (by norm_num) (by norm_num) rfl⟩

/-- Quantity is conserved by the FIFO loop: surviving lots, partial-close
records and full-close records together carry exactly the incoming
quantity. -/
theorem sellLoop_quantity_sum (time : Int) (price F S Q : ℚ) :
    ∀ (l : List Trade) (r : ℚ),
      (((TradeTracker.sellLoop l time price F S Q r).1.map Trade.quantity).sum
        + ((TradeTracker.sellLoop l time price F S Q r).2.1.map Trade.quantity).sum)
        + ((TradeTracker.sellLoop l time price F S Q r).2.2.map Trade.quantity).sum
        = (l.map Trade.quantity).sum := by
  intro l
  induction l with
  | nil => intro r; simp [TradeTracker.sellLoop]
  | cons t rest ih =>
      intro r
      rw [TradeTracker.sellLoop]
      by_cases hr : r ≤ 0
      · rw [if_pos hr]
        simp
      · rw [if_neg hr]
        by_cases hq : t.quantity ≤ min r t.quantity
        · rw [if_pos hq]
          dsimp only
          have := ih (r - min r t.quantity)
          simp only [List.map_cons, List.sum_cons, Trade.close] at *
          linarith
        · rw [if_neg hq]
          dsimp only
          have := ih (r - min r t.quantity)
          simp only [List.map_cons, List.sum_cons, Trade.close] at *
          linarith

/-- **C4, counterexample.**  The claim says the closed Trade's entry
slippage is prorated by `m/q`.  On `lotTracker` (one lot of 2 units with
entry slippage 1/2), selling 1 unit partially closes the lot: the recorded
trade keeps `entry_slippage = 1/2` unchanged, not the prorated
`1/2 × 1/2 = 1/4`. -/
theorem record_sell_partial_close_keeps_entry_slippage :
    (TradeTracker.record_sell lotTracker "X" 1 12 1 6 (1/4)).closed_trades.map
        (fun c => c.entry_slippage) = [1/2] ∧
    ((1:ℚ)/2) ≠ (1/2) * (1/2) := by
  constructor
  · norm_num [TradeTracker.record_sell, TradeTracker.record_buy, TradeTracker.sellLoop,
      lotTracker, TradeTracker.new, Trade.new, Trade.close, lookupKV, setKV, eraseKV,
      min_def]
  · norm_num

/-- **C4, amended.**  On a sell of size `Q` the FIFO loop consumes head
lots as the claim says — exit fees and exit slippage of each closed trade
are the sell's fees and slippage prorated by `m/Q`, a partial close
prorates the lot's entry **fees** by `m/q` and reduces the surviving lot's
quantity and entry fees by the consumed amounts, and a fully consumed lot
is deleted — but the closed trade's entry **slippage** is carried over
unchanged (never prorated), and quantity is conserved across survivors and
closed trades. -/
theorem record_sell_fifo_proration (tlot : Trade) (rest : List Trade) (time : Int)
    (price F S Q rem : ℚ) (hrem : 0 < rem) :
    (tlot.quantity ≤ rem →
      TradeTracker.sellLoop (tlot :: rest) time price F S Q rem
        = ((TradeTracker.sellLoop rest time price F S Q (rem - tlot.quantity)).1,
           (TradeTracker.sellLoop rest time price F S Q (rem - tlot.quantity)).2.1,
           Trade.close tlot time price (F * (tlot.quantity / Q)) (S * (tlot.quantity / Q))
             :: (TradeTracker.sellLoop rest time price F S Q (rem - tlot.quantity)).2.2)) ∧
    (rem < tlot.quantity →
      TradeTracker.sellLoop (tlot :: rest) time price F S Q rem
        = ({ tlot with quantity := tlot.quantity - rem,
                       entry_fees := tlot.entry_fees - tlot.entry_fees * (rem / tlot.quantity) }
             :: rest,
           [Trade.close { tlot with quantity := rem,
                                    entry_fees := tlot.entry_fees * (rem / tlot.quantity) }
              time price (F * (rem / Q)) (S * (rem / Q))],
           [])) ∧
    (∀ (c : Trade) (e : Int) (xp xf xs : ℚ),
       (Trade.close c e xp xf xs).entry_slippage = c.entry_slippage ∧
       (Trade.close c e xp xf xs).entry_fees = c.entry_fees ∧
       (Trade.close c e xp xf xs).quantity = c.quantity ∧
       (Trade.close c e xp xf xs).exit_fees = xf ∧
       (Trade.close c e xp xf xs).exit_slippage = xs) ∧
    (∀ (l : List Trade) (r : ℚ),
      (((TradeTracker.sellLoop l time price F S Q r).1.map Trade.quantity).sum
        + ((TradeTracker.sellLoop l time price F S Q r).2.1.map Trade.quantity).sum)
        + ((TradeTracker.sellLoop l time price F S Q r).2.2.map Trade.quantity).sum
        = (l.map Trade.quantity).sum) := by
  refine ⟨?_, ?_, fun c e xp xf xs => ⟨rfl, rfl, rfl, rfl, rfl⟩,
    sellLoop_quantity_sum time price F S Q⟩
  · intro hfull
    have hmin : min rem tlot.quantity = tlot.quantity := min_eq_right hfull
    rw [TradeTracker.sellLoop, if_neg (not_le.mpr hrem), hmin,
      if_pos (le_refl tlot.quantity)]
  · intro hpart
    have hmin : min rem tlot.quantity = rem := min_eq_left (le_of_lt hpart)
    rw [TradeTracker.sellLoop, if_neg (not_le.mpr hrem), hmin,
      if_neg (not_le.mpr hpart), sub_self,
      sellLoop_nonpos time price F S Q rest 0 (le_refl 0)]

/-- **C4, witness** for `record_sell_fifo_proration`: the 2-unit lot of
`lotTracker` partially closed by a 1-unit sell. -/
theorem record_sell_fifo_proration_witness :
    (0:ℚ) < 1 ∧
    ((1:ℚ) < 2 →
      TradeTracker.sellLoop [Trade.new 1 "X" 0 10 2 4 (1/2)] 1 12 6 (1/4) 1 1
        = ({ Trade.new 1 "X" 0 10 2 4 (1/2) with
              quantity := (2:ℚ) - 1,
              entry_fees := (4:ℚ) * (1 / 2) }
             :: [],
           [Trade.close { Trade.new 1 "X" 0 10 2 4 (1/2) with
                          quantity := (1:ℚ), entry_fees := (4:ℚ) * (1 / 2) }
              1 12 ((6:ℚ) * (1 / 1)) ((1/4 : ℚ) * (1 / 1))],
           [])) := by
  have h := record_sell_fifo_proration (Trade.new 1 "X" 0 10 2 4 (1/2)) [] 1 12 6 (1/4) 1 1
    (by norm_num)
  refine ⟨by norm_num, fun h12 => ?_⟩
  have h2 := h.2.1 (by
    show (1:ℚ) < (Trade.new 1 "X" 0 10 2 4 (1/2)).quantity
    norm_num [Trade.new])
  rw [h2]
  norm_num [Trade.new]

/-- **C7, counterexample.**  The claim says an out-of-range asset
pointer/length makes the host silently drop the call with no panic.  With
empty guest memory, `place_market_order(ptr = 0, len = 1, dir = 0)` slices
`data[0..1]` out of range before any other check: the host closure panics
(modelled as `.panicked`), which is not a silent drop. -/
theorem place_market_order_oob_panics :
    place_market_order [] 0 1 0 1 = HostCallResult.panicked ∧
    HostCallResult.panicked ≠ HostCallResult.dropped := by
  exact ⟨by decide, by decide⟩

/-- **C7, amended.**  A direction other than 0/1 whose asset range is
readable is silently dropped (no order, no panic); but an asset
pointer/length range that does not denote a valid in-bounds slice of guest
memory makes the closure panic via slice indexing — the memory read
happens before the direction check, so it panics even for bad
directions. -/
theorem place_market_order_drop_semantics (mem : List ℕ) (p l d : Int) (s : ℚ) :
    (read_asset_bytes mem p l = none →
       place_market_order mem p l d s = HostCallResult.panicked) ∧
    (∀ bs, read_asset_bytes mem p l = some bs → d ≠ 0 → d ≠ 1 →
       place_market_order mem p l d s = HostCallResult.dropped) ∧
    (∀ bs, read_asset_bytes mem p l = some bs → d = 0 →
       place_market_order mem p l d s = HostCallResult.placed bs OrderDirection.Buy s) ∧
    (∀ bs, read_asset_bytes mem p l = some bs → d = 1 →
       place_market_order mem p l d s = HostCallResult.placed bs OrderDirection.Sell s) := by
  refine ⟨?_, ?_, ?_, ?_⟩
  · intro h
    unfold place_market_order
    rw [h]
  · intro bs h h0 h1
    unfold place_market_order
    rw [h]
    dsimp only
    split
    · exact absurd rfl h0
    · exact absurd rfl h1
    · rfl
  · intro bs h h0
    subst h0
    unfold place_market_order
    rw [h]
    simp
  · intro bs h h1
    subst h1
    unfold place_market_order
    rw [h]
    simp

/-- **C7, witness** for `place_market_order_drop_semantics`: guest memory
`[65, 66]`, an in-range read of both bytes, and the unknown direction 7. -/
theorem place_market_order_drop_semantics_witness :
    read_asset_bytes [65, 66] 0 2 = some [65, 66] ∧
    (7:Int) ≠ 0 ∧ (7:Int) ≠ 1 ∧
    place_market_order [65, 66] 0 2 7 1 = HostCallResult.dropped :=
  ⟨by decide, by decide, by decide,
   (place_market_order_drop_semantics [65, 66] 0 2 7 1).2.1 [65, 66]
     (by decide) (by decide) (by decide)⟩

theorem sharpe_returns_length (curve : List (Int × ℝ)) :
    (sharpe_returns curve).length = curve.length - 1 := by
  simp only [sharpe_returns, List.length_map, List.length_zip, List.length_tail]
  omega

theorem sum_map_sub_const (l : List ℝ) (c : ℝ) :
    (l.map (fun r => r - c)).sum = l.sum - l.length * c := by
  induction l with
  | nil => simp
  | cons x xs ih =>
      simp only [List.map_cons, List.sum_cons, ih, List.length_cons]
      push_cast
      ring

/-- The `windows(2)` pairing computes exactly the spec's indexed returns
`(v[i+1] − v[i]) / v[i]` over the equity values. -/
theorem sharpe_returns_eq_spec (curve : List (Int × ℝ)) :
    sharpe_returns curve = spec_returns (curve.map Prod.snd) := by
  apply List.ext_getElem
  · simp only [sharpe_returns, spec_returns, List.length_map, List.length_zip,
      List.length_tail, List.length_range]
    omega
  · intro i h1 h2
    have hi : i < curve.length - 1 := by
      simpa [sharpe_returns_length] using h1
    have hia : i < curve.length := by omega
    have hib : i + 1 < curve.length := by omega
    simp only [sharpe_returns, spec_returns, List.getElem_map, List.getElem_zip,
      List.getElem_range, List.getElem_tail]
    rw [List.getD_eq_getElem _ 0 (by simpa using hib),
        List.getD_eq_getElem _ 0 (by simpa using hia)]
    simp

/-- **C8.**  `calculate_sharpe_ratio` returns
`mean(r − rf/252) / stddev(r) × √252` where `r` ranges over the per-step
returns `(v[i+1] − v[i]) / v[i]` of consecutive equity points, and returns
exactly 0 when the curve has fewer than 2 points or the standard deviation
of the returns is 0. -/
theorem calculate_sharpe_ratio_spec (curve : List (Int × ℝ)) (rf : ℝ) :
    (2 ≤ curve.length →
      Real.sqrt (returns_variance (sharpe_returns curve)) ≠ 0 →
      calculate_sharpe_ratio curve rf
        = ((sharpe_returns curve).map (fun r => r - rf / 252)).sum
            / ((sharpe_returns curve).length : ℝ)
            / Real.sqrt (returns_variance (sharpe_returns curve)) * Real.sqrt 252 ∧
      sharpe_returns curve = spec_returns (curve.map Prod.snd)) ∧
    (curve.length < 2 → calculate_sharpe_ratio curve rf = 0) ∧
    (Real.sqrt (returns_variance (sharpe_returns curve)) = 0 →
      calculate_sharpe_ratio curve rf = 0) := by
  refine ⟨?_, ?_, ?_⟩
  · intro hlen hstd
    have hlen' : (sharpe_returns curve).length = curve.length - 1 :=
      sharpe_returns_length curve
    have hnonnil : sharpe_returns curve ≠ [] := by
      intro hc
      rw [hc] at hlen'
      simp at hlen'
      omega
    have hn : ((sharpe_returns curve).length : ℝ) ≠ 0 := by
      have hpos : 0 < (sharpe_returns curve).length := List.length_pos.mpr hnonnil
      exact_mod_cast Nat.pos_iff_ne_zero.mp hpos
    refine ⟨?_, sharpe_returns_eq_spec curve⟩
    unfold calculate_sharpe_ratio
    rw [if_neg (by omega)]
    dsimp only
    rw [if_neg (by simp [hnonnil]), if_neg hstd, sum_map_sub_const]
    unfold returns_mean
    conv_rhs => rw [sub_div, mul_div_cancel_left₀ _ hn]
  · intro h
    unfold calculate_sharpe_ratio
    rw [if_pos h]
  · intro h
    unfold calculate_sharpe_ratio
    by_cases hl : curve.length < 2
    · rw [if_pos hl]
    · rw [if_neg hl]
      dsimp only
      by_cases hemp : (sharpe_returns curve).isEmpty
      · rw [if_pos hemp]
      · rw [if_neg hemp, if_pos h]

/-- **C8, witness** for `calculate_sharpe_ratio_spec` on the three-point
equity curve `1, 2, 6` (returns `[1, 2]`, variance `1/4`). -/
theorem calculate_sharpe_ratio_spec_witness :
    2 ≤ ([((0:Int), (1:ℝ)), (0, 2), (0, 6)]).length ∧
    Real.sqrt (returns_variance (sharpe_returns [((0:Int), (1:ℝ)), (0, 2), (0, 6)])) ≠ 0 ∧
    (calculate_sharpe_ratio [((0:Int), (1:ℝ)), (0, 2), (0, 6)] 0
        = ((sharpe_returns [((0:Int), (1:ℝ)), (0, 2), (0, 6)]).map
              (fun r => r - 0 / 252)).sum
            / ((sharpe_returns [((0:Int), (1:ℝ)), (0, 2), (0, 6)]).length : ℝ)
            / Real.sqrt (returns_variance
                (sharpe_returns [((0:Int), (1:ℝ)), (0, 2), (0, 6)]))
            * Real.sqrt 252 ∧
     sharpe_returns [((0:Int), (1:ℝ)), (0, 2), (0, 6)]
       = spec_returns ([((0:Int), (1:ℝ)), (0, 2), (0, 6)].map Prod.snd)) := by
  have hret : sharpe_returns [((0:Int), (1:ℝ)), (0, 2), (0, 6)] = [1, 2] := by
    norm_num [sharpe_returns]
  have hvar : returns_variance ([1, 2] : List ℝ) = 1/4 := by
    norm_num [returns_variance, returns_mean]
  have hstd : Real.sqrt (returns_variance
      (sharpe_returns [((0:Int), (1:ℝ)), (0, 2), (0, 6)])) ≠ 0 := by
    rw [hret, hvar]
    exact Real.sqrt_ne_zero'.mpr (by norm_num)
  exact ⟨by norm_num, hstd,
    (calculate_sharpe_ratio_spec [((0:Int), (1:ℝ)), (0, 2), (0, 6)] 0).1
      (by norm_num) hstd⟩

end Kronos
